import Mathlib

/-
Verification development for the storageto/cli upload orchestration engine.

The Go source of the engine (package upload: uploadWithRetry, uploadMultipart,
uploadFilesBatch, progressReader.Read, humanSize, generatePartNumbers, and the
api client glue) is shallowly embedded below.  Pure helpers are translated
directly; the concurrent orchestration loops are embedded as deterministic
functions of an explicit environment that records the scheduling
nondeterminism (which parts were launched, the order in which successful part
goroutines appended their completion tokens, whether the context was observed
cancelled), constrained by a ValidRun predicate expressing exactly what the
Go control flow guarantees about those quantities.
-/

namespace Storageto

/-! ## Constants (source: const block of the upload package) -/

def maxRetries : Nat := 3

def concurrentParts : Nat := 4

def concurrentFiles : Nat := 6

def batchSize : Nat := 250

def partURLBatchSize : Nat := 50

/-! ## CRC-32 (IEEE), as in Go hash/crc32 simpleMakeTable / simpleUpdate.

Bytes are modelled as Nat; indices into the table are reduced mod 256 exactly
as byte(crc)^v does in Go.  crc32Update inverts the running value on entry and
exit, matching crc32.Update for the IEEE table. -/

def crcPoly : Nat := 0xedb88320

def crcStep8 : Nat → Nat → Nat
  | 0, c => c
  | k + 1, c => crcStep8 k (if c % 2 = 1 then (c / 2) ^^^ crcPoly else c / 2)

def crcTableEntry (i : Nat) : Nat := crcStep8 8 i

def crc32UpdateByte (crc b : Nat) : Nat :=
  crcTableEntry ((crc % 256) ^^^ (b % 256)) ^^^ (crc / 256)

def crc32Update (crc : Nat) (p : List Nat) : Nat :=
  0xFFFFFFFF ^^^ (p.foldl crc32UpdateByte (crc ^^^ 0xFFFFFFFF))

def crc32IEEE (p : List Nat) : Nat := crc32Update 0 p

/-! ## progressReader (source: type progressReader, func (pr *progressReader) Read)

One Read call is embedded as a pure step: the inner reader delivers a chunk of
bytes together with an optional error; the step returns the updated reader
state, the observer callback event (if any), and the (n, err) pair Read
returns.  hasObserver models onProgress != nil and hasherEnabled models
hasher != nil. -/

structure ProgressReader where
  uploaded : Int
  total : Int
  hasherEnabled : Bool
  hasObserver : Bool
  crc : Nat
  deriving Repr, DecidableEq

def progressRead (pr : ProgressReader) (chunk : List Nat) (err : Option String) :
    ProgressReader × Option (Int × Int) × (Nat × Option String) :=
  if 0 < chunk.length then
    let uploaded := pr.uploaded + chunk.length
    let crc := if pr.hasherEnabled then crc32Update pr.crc chunk else pr.crc
    let callback := if pr.hasObserver then some (uploaded, pr.total) else none
    ({ pr with uploaded := uploaded, crc := crc }, callback, (chunk.length, err))
  else
    (pr, none, (0, err))

/-- Reader state as constructed in uploadSingle: zero counters, CRC
accumulation enabled (hasher: crc32.IEEETable), observer attached. -/
def initProgressReader (total : Int) : ProgressReader :=
  { uploaded := 0, total := total, hasherEnabled := true, hasObserver := true, crc := 0 }

def runReads (pr : ProgressReader) (chunks : List (List Nat)) : ProgressReader :=
  chunks.foldl (fun s c => (progressRead s c none).1) pr

/-! ## humanSize (source: func humanSize)

The Go loop `for n := bytes / unit; n >= unit; n /= unit` is embedded with an
explicit fuel argument equal to the starting n, which strictly dominates the
number of iterations, so the recursion is structural and computable.  The
float64 expression fmt.Sprintf with one fractional digit is modelled as exact
round-half-even of the rational bytes/div to tenths; this agrees with the
strconv rounding of the float64 quotient for every size below 2^53, where the
quotient is exactly representable. -/

def hsLoopF : Nat → Nat → Nat → Nat × Nat
  | 0, _, div => (div, 0)
  | fuel + 1, n, div =>
    if 1024 ≤ n then
      let r := hsLoopF fuel (n / 1024) (div * 1024)
      (r.1, r.2 + 1)
    else (div, 0)

def roundHalfEven (num den : Nat) : Nat :=
  if 2 * (num % den) < den then num / den
  else if den < 2 * (num % den) then num / den + 1
  else if num / den % 2 = 0 then num / den else num / den + 1

def decimal1 (tenths : Nat) : String :=
  toString (tenths / 10) ++ "." ++ toString (tenths % 10)

def unitLetter (exp : Nat) : String :=
  String.singleton (['K', 'M', 'G', 'T', 'P', 'E'].getD exp 'K')

def humanSize (bytes : Int) : String :=
  if bytes < 1024 then toString bytes ++ " B"
  else
    let b := bytes.toNat
    let de := hsLoopF (b / 1024) (b / 1024) 1024
    decimal1 (roundHalfEven (10 * b) de.1) ++ " " ++ unitLetter de.2 ++ "B"

/-- Displayed value of humanSize output, scaled by 10 to stay integral: the
mantissa in tenths times the divisor for the large branch, ten times the raw
byte count for the small branch.  Built from exactly the same components the
string is rendered from. -/
def hsVal10 (bytes : Int) : Int :=
  if bytes < 1024 then 10 * bytes
  else
    let b := bytes.toNat
    let de := hsLoopF (b / 1024) (b / 1024) 1024
    ((roundHalfEven (10 * b) de.1 * de.1 : Nat) : Int)

/-! ## generatePartNumbers (source: func generatePartNumbers)

Go allocates make([]int, 0, end-start+1) first: a negative capacity panics at
runtime, embedded as none.  Otherwise the loop for i := start; i <= end; i++
appends the contiguous values; it executes (end-start+1).toNat times. -/

def genNums : Int → Nat → List Int
  | _, 0 => []
  | i, n + 1 => i :: genNums (i + 1) n

def generatePartNumbers (start stop : Int) : Option (List Int) :=
  if stop - start + 1 < 0 then none
  else some (genNums start (stop - start + 1).toNat)

/-! ## Retry driver (source: func (u *Uploader) uploadWithRetry)

The loop polls the context at two kinds of points: before attempt i
(poll index 2*i) and during the inter-attempt wait after a failed attempt i
(poll index 2*i+1, via select on ctx.Done versus time.After).  ctx j = true
means ctx.Err() is non-nil at poll j (for the wait poll: the select takes the
ctx.Done branch).  fn i is the outcome of invocation i: none is success, some
e is the error of that attempt.  The run records the driver result and how
many invocations and completed inter-attempt delays occurred. -/

inductive RetryError (E : Type) where
  | op (e : E)
  | ctxCancelled
  deriving Repr, DecidableEq

structure RetryRun (E : Type) where
  result : Except (RetryError E) Unit
  invocations : Nat
  delays : Nat
  deriving Repr

def retryFinal {E : Type} : Option E → Except (RetryError E) Unit
  | none => .ok ()
  | some e => .error (.op e)

def retryGo {E : Type} (ctx : Nat → Bool) (fn : Nat → Option E) :
    Nat → Nat → Option E → RetryRun E
  | 0, _, last => ⟨retryFinal last, 0, 0⟩
  | fuel + 1, i, _ =>
    if ctx (2 * i) then ⟨.error .ctxCancelled, 0, 0⟩
    else
      match fn i with
      | none => ⟨.ok (), 1, 0⟩
      | some e =>
        if fuel = 0 then ⟨.error (.op e), 1, 0⟩
        else if ctx (2 * i + 1) then ⟨.error .ctxCancelled, 1, 0⟩
        else
          let r := retryGo ctx fn fuel (i + 1) (some e)
          ⟨r.result, r.invocations + 1, r.delays + 1⟩

def uploadWithRetry {E : Type} (ctx : Nat → Bool) (fn : Nat → Option E) : RetryRun E :=
  retryGo ctx fn maxRetries 0 none

/-! ## Part boundaries (source: uploadMultipart, the offset / partSize block)

offset := int64(partNum-1) * initResp.PartSize; partSize := initResp.PartSize
unless partNum == initResp.TotalParts, in which case partSize = size - offset. -/

def partOffset (partNum partSize : Int) : Int := (partNum - 1) * partSize

def partLength (partNum totalParts partSize size : Int) : Int :=
  if partNum = totalParts then size - partOffset partNum partSize else partSize

/-- Lengths of all parts 1..totalParts in order. -/
def partLengths (totalParts partSize size : Int) : List Int :=
  (List.range totalParts.toNat).map fun k : Nat => partLength ((k : Int) + 1) totalParts partSize size

/-! ## Multipart orchestration (source: func (u *Uploader) uploadMultipart)

The concurrent launch loop is embedded via an environment recording the
scheduling nondeterminism of one run:
  * launched    — how many parts (a prefix 1..launched of part numbers) were
                  handed to goroutines before the loop stopped;
  * failed p    — whether part p's goroutine ended in error (its uploadPart
                  call, retries included, failed);
  * order       — the order in which the successful goroutines appended their
                  api.Part completion token to the mutex-guarded parts slice;
  * urlFail     — whether a needed GetPartURLs page fetch failed (the loop
                  returns immediately in that case);
  * cancelled   — whether ctx.Err() was non-nil at the end of the function
                  (the same value the deferred abort check observes);
  * completeResult / abortResult — outcomes of the remote CompleteMultipart
                  and AbortUpload calls; the abort result is ignored by the
                  source, which the model reflects by never reading it;
  * fileBytes   — the file content, re-read locally for the final CRC-32;
  * crcReadOk   — whether that local re-read (io.Copy) succeeded.
The uploadErr atomic stores the first observed part failure; which racing
failure wins CompareAndSwap is scheduling-dependent, and is modelled as the
least-numbered failed launched part (no claim depends on the choice). -/

structure Part where
  partNumber : Nat
  etag : String
  deriving Repr, DecidableEq

inductive MpError where
  | urlFetchFailed
  | cancelled
  | partFailed (p : Nat)
  | completeFailed (msg : String)
  | crcReadFailed
  deriving Repr, DecidableEq

structure MpEnv where
  totalParts : Nat
  uploadID : String
  etag : Nat → String
  failed : Nat → Bool
  launched : Nat
  order : List Nat
  urlFail : Bool
  cancelled : Bool
  completeResult : Except String Unit
  abortResult : Except String Unit
  fileBytes : List Nat
  crcReadOk : Bool

structure MultipartTrace where
  finalizeCalled : Option (List Part)
  abortCalled : Bool
  outcome : Except MpError Nat

/-- Constraints the Go control flow puts on one run's scheduling record:
only a prefix of parts is ever launched; the parts slice collects exactly the
successful launched parts, once each, in some order; and the launch loop only
stops short of totalParts when it observed a cancellation, a URL-fetch
failure, or a part failure. -/
def ValidRun (env : MpEnv) : Prop :=
  env.launched ≤ env.totalParts ∧
  env.order.Perm ((List.range' 1 env.launched).filter fun p => !env.failed p) ∧
  (¬env.cancelled = true → ¬env.urlFail = true →
    (∀ p ∈ List.range' 1 env.launched, env.failed p = false) →
    env.launched = env.totalParts)

/-- Completion tokens as collected in the mutex-guarded parts slice: one
api.Part{PartNumber, ETag} per successful goroutine, in append order. -/
def collectedParts (env : MpEnv) : List Part :=
  env.order.map fun p => ⟨p, env.etag p⟩

def firstFailure (env : MpEnv) : Option Nat :=
  (List.range' 1 env.launched).find? fun p => env.failed p

def uploadMultipart (env : MpEnv) : MultipartTrace :=
  let abortCalled := env.cancelled && !(env.uploadID == "")
  if env.urlFail then ⟨none, abortCalled, .error .urlFetchFailed⟩
  else if env.cancelled then ⟨none, abortCalled, .error .cancelled⟩
  else
    match firstFailure env with
    | some p => ⟨none, abortCalled, .error (.partFailed p)⟩
    | none =>
      match env.completeResult with
      | .error msg => ⟨some (collectedParts env), abortCalled, .error (.completeFailed msg)⟩
      | .ok _ =>
        if env.crcReadOk then
          ⟨some (collectedParts env), abortCalled, .ok (crc32IEEE env.fileBytes)⟩
        else ⟨some (collectedParts env), abortCalled, .error .crcReadFailed⟩

/-- Ascending-by-part-number predicate on a completion token list. -/
def partsSorted (ps : List Part) : Prop :=
  ps.Pairwise fun a b => a.partNumber ≤ b.partNumber

/-! ## Batch orchestration (source: func (u *Uploader) uploadFilesBatch)

The model starts after step 1 (local stat/classify, which has no remote
effect) with numFiles inputs indexed 0..numFiles-1.  Environment:
  * createOk        — CreateCollection outcome;
  * initCallOk p    — whether the p-th InitUploadBatch page call succeeds
                      (pages of batchSize files; a failing page aborts the
                      batch immediately);
  * initRes i       — per-file result inside the page responses: an error
                      message, or (uploadURL, r2Key);
  * cancelledAt     — index at which the upload loop observed ctx.Err() and
                      broke, none if never;
  * transferRes i   — outcome of uploadFileToR2 for file i when attempted:
                      error, or the computed CRC-32;
  * confirmCallOk p — whether the p-th ConfirmUploadBatch page call succeeds;
  * readyOk         — MarkCollectionReady outcome. -/

structure BatchEnv where
  numFiles : Nat
  createOk : Bool
  initCallOk : Nat → Bool
  initRes : Nat → Except String (String × String)
  cancelledAt : Option Nat
  transferRes : Nat → Except String Nat
  confirmCallOk : Nat → Bool
  readyOk : Bool

inductive BatchError where
  | createFailed
  | initBatchFailed
  | confirmBatchFailed
  | readyFailed
  deriving Repr, DecidableEq

structure BatchTrace where
  outcome : Except BatchError Unit
  confirmed : List Nat
  markedReady : Bool
  errorCount : Nat
  uploadedCount : Nat

def numPages (n : Nat) : Nat := (n + batchSize - 1) / batchSize

def firstFailingPage (ok : Nat → Bool) (pages : Nat) : Option Nat :=
  (List.range pages).find? fun p => !ok p

/-- Number of files the upload loop iterated over before breaking on
cancellation (all of them when the context never fired). -/
def processedCount (env : BatchEnv) : Nat :=
  match env.cancelledAt with
  | none => env.numFiles
  | some c => min c env.numFiles

/-- File i is skipped with errorCount++ when its init result carries an error
or an empty upload URL (uploadErr != nil || uploadURL == ""). -/
def negFail (env : BatchEnv) (i : Nat) : Bool :=
  match env.initRes i with
  | .error _ => true
  | .ok (u, _) => u == ""

/-- File i was attempted and its R2 transfer failed. -/
def transFail (env : BatchEnv) (i : Nat) : Bool :=
  !negFail env i && (env.transferRes i).isOk == false

/-- uploadErr field of file i is nil at confirm time.  Files past the
cancellation break were never attempted, so only an init error marks them. -/
def uploadErrNil (env : BatchEnv) (i : Nat) : Bool :=
  match env.initRes i with
  | .error _ => false
  | .ok (u, _) => if i < processedCount env then (u == "") || (env.transferRes i).isOk else true

def r2Key (env : BatchEnv) (i : Nat) : String :=
  match env.initRes i with
  | .error _ => ""
  | .ok (_, k) => k

/-- Indices collected into toConfirm: uploadErr == nil && r2Key != "". -/
def toConfirm (env : BatchEnv) : List Nat :=
  (List.range env.numFiles).filter fun i => uploadErrNil env i && !(r2Key env i == "")

def batchErrorCount (env : BatchEnv) : Nat :=
  (List.range (processedCount env)).countP fun i => negFail env i || transFail env i

def batchUploadedCount (env : BatchEnv) : Nat :=
  (List.range (processedCount env)).countP fun i => !negFail env i && (env.transferRes i).isOk

def uploadFilesBatch (env : BatchEnv) : BatchTrace :=
  if !env.createOk then ⟨.error .createFailed, [], false, 0, 0⟩
  else
    match firstFailingPage env.initCallOk (numPages env.numFiles) with
    | some _ => ⟨.error .initBatchFailed, [], false, 0, 0⟩
    | none =>
      let ec := batchErrorCount env
      let uc := batchUploadedCount env
      let tc := toConfirm env
      match firstFailingPage env.confirmCallOk (numPages tc.length) with
      | some p => ⟨.error .confirmBatchFailed, tc.take (batchSize * p), false, ec, uc⟩
      | none =>
        if env.readyOk then ⟨.ok (), tc, true, ec, uc⟩
        else ⟨.error .readyFailed, tc, false, ec, uc⟩

/-! # Theorems -/

/-! ## C4, C5: retry driver -/

/-- C4: with maxAttempts = 3 and no cancellation, an operation failing twice
then succeeding is invoked exactly 3 times with exactly 2 inter-attempt
delays and the driver returns success; an operation that always fails is
invoked exactly maxRetries times and the driver returns the final attempt's
error verbatim (wrapped only in the op constructor distinguishing operation
errors from cancellation). -/
theorem c4_retry_counts {E : Type} (f1 f2 : Nat → Option E) (e0 e1 : E) (g : Nat → E)
    (h0 : f1 0 = some e0) (h1 : f1 1 = some e1) (h2 : f1 2 = none)
    (hg : ∀ i, i < maxRetries → f2 i = some (g i)) :
    uploadWithRetry (fun _ => false) f1 = ⟨.ok (), 3, 2⟩ ∧
    uploadWithRetry (fun _ => false) f2 = ⟨.error (.op (g 2)), 3, 2⟩ := by
  constructor
  · simp [uploadWithRetry, maxRetries, retryGo, h0, h1, h2]
  · simp [uploadWithRetry, maxRetries, retryGo,
      hg 0 (by simp [maxRetries]), hg 1 (by simp [maxRetries]), hg 2 (by simp [maxRetries])]

theorem c4_witness :
    uploadWithRetry (fun _ => false)
        (fun i => if i = 0 then some 10 else if i = 1 then some (11 : Nat) else none) =
      ⟨.ok (), 3, 2⟩ ∧
    uploadWithRetry (fun _ => false) (fun i : Nat => some (i + 100)) =
      ⟨.error (.op 102), 3, 2⟩ :=
  c4_retry_counts
    (fun i => if i = 0 then some 10 else if i = 1 then some (11 : Nat) else none)
    (fun i => some (i + 100)) 10 11 (fun i => i + 100) rfl rfl rfl (fun _ _ => rfl)

/-- C5: if the cancellation signal fires at the poll before attempt i starts
(left conjunct, the signal firing from poll index 2*i on) or during the
inter-attempt wait after failed attempt i (right conjunct, firing from poll
index 2*i+1 on), the driver aborts immediately: the next attempt is never
started (the invocation count stops at i, respectively i+1) and the result is
the cancellation-kind failure, not the operation's most recent error. -/
theorem c5_retry_cancellation {E : Type} (fn : Nat → Option E) (g : Nat → E) (i : Nat) :
    ((∀ j, j < i → fn j = some (g j)) → i < maxRetries →
      (uploadWithRetry (fun j => decide (2 * i ≤ j)) fn).result = .error .ctxCancelled ∧
      (uploadWithRetry (fun j => decide (2 * i ≤ j)) fn).invocations = i) ∧
    ((∀ j, j ≤ i → fn j = some (g j)) → i < maxRetries - 1 →
      (uploadWithRetry (fun j => decide (2 * i + 1 ≤ j)) fn).result = .error .ctxCancelled ∧
      (uploadWithRetry (fun j => decide (2 * i + 1 ≤ j)) fn).invocations = i + 1) := by
  constructor
  · intro hf hi
    rw [maxRetries] at hi
    interval_cases i
    · simp [uploadWithRetry, maxRetries, retryGo]
    · simp [uploadWithRetry, maxRetries, retryGo, hf 0 (by omega)]
    · simp [uploadWithRetry, maxRetries, retryGo, hf 0 (by omega), hf 1 (by omega)]
  · intro hf hi
    rw [maxRetries] at hi
    interval_cases i
    · simp [uploadWithRetry, maxRetries, retryGo, hf 0 (by omega)]
    · simp [uploadWithRetry, maxRetries, retryGo, hf 0 (by omega), hf 1 (by omega)]

theorem c5_witness :
    (uploadWithRetry (fun j => decide (2 * 1 ≤ j)) (fun _ => some (0 : Nat))).result =
      .error .ctxCancelled ∧
    (uploadWithRetry (fun j => decide (2 * 1 ≤ j)) (fun _ => some (0 : Nat))).invocations = 1 :=
  (c5_retry_cancellation (fun _ => some 0) (fun _ => 0) 1).1 (fun _ _ => rfl) (by decide)

/-! ## C6: part boundaries -/

lemma partLengths_head_sum (T P F : Int) :
    ∀ m : Nat, (m : Int) < T →
      (((List.range m).map fun k : Nat => partLength ((k : Int) + 1) T P F).sum) = m * P := by
  intro m
  induction m with
  | zero => simp
  | succ n ih =>
    intro h
    have hn : (n : Int) < T := by push_cast at h ⊢; omega
    have hne : ¬((n : Int) + 1 = T) := by push_cast at h; omega
    rw [List.range_succ, List.map_append, List.sum_append, ih hn]
    simp [partLength, hne]
    ring

/-- C6: for file size F > 0, negotiated part size P > 0, and totalParts T as
negotiated — i.e. the unique T with (T-1)*P < F ≤ T*P, which is what the
server's choice of a part count covering the file guarantees — part N's
offset is (N-1)*P, every part except the last has length P, the last part's
length is F minus its offset, the part lengths sum to F, and the last part's
length is at most P. -/
theorem c6_part_boundaries (F P T : Int) (hF : 0 < F) (hP : 0 < P)
    (hlo : (T - 1) * P < F) (hhi : F ≤ T * P) :
    (∀ N : Int, 1 ≤ N → N ≤ T → partOffset N P = (N - 1) * P) ∧
    (∀ N : Int, 1 ≤ N → N < T → partLength N T P F = P) ∧
    partLength T T P F = F - partOffset T P ∧
    (partLengths T P F).sum = F ∧
    partLength T T P F ≤ P := by
  have hT : 0 < T := by nlinarith
  refine ⟨fun N _ _ => rfl, ?_, ?_, ?_, ?_⟩
  · intro N _ hlt
    rw [partLength, if_neg (by omega : ¬(N = T))]
  · simp [partLength]
  · have hn1 : 1 ≤ T.toNat := by omega
    have hcast : (T.toNat : Int) = T := by omega
    rw [partLengths, show T.toNat = (T.toNat - 1) + 1 by omega,
      List.range_succ, List.map_append, List.sum_append,
      partLengths_head_sum T P F (T.toNat - 1) (by omega)]
    have hlast : ((T.toNat - 1 : Nat) : Int) + 1 = T := by omega
    have hcoef : ((T.toNat - 1 : Nat) : Int) = T - 1 := by omega
    simp only [List.map_cons, List.map_nil, List.sum_cons, List.sum_nil, add_zero]
    rw [hlast, partLength, if_pos rfl, partOffset, hcoef]
    ring
  · have h : (T - 1) * P + P = T * P := by ring
    rw [partLength, if_pos rfl, partOffset]
    linarith

theorem c6_witness :
    (partLengths 3 2 5).sum = 5 ∧ partLength 3 3 2 5 ≤ 2 :=
  ⟨(c6_part_boundaries 5 2 3 (by decide) (by decide) (by decide) (by decide)).2.2.2.1,
   (c6_part_boundaries 5 2 3 (by decide) (by decide) (by decide) (by decide)).2.2.2.2⟩

/-! ## C10: generatePartNumbers -/

lemma genNums_eq (n : Nat) : ∀ s : Int, genNums s n = (List.range n).map fun k : Nat => s + (k : Int) := by
  induction n with
  | zero => intro s; rfl
  | succ m ih =>
    intro s
    calc genNums s (m + 1) = s :: genNums (s + 1) m := rfl
      _ = s :: (List.range m).map (fun k : Nat => (s + 1) + (k : Int)) := by rw [ih]
      _ = (List.range (m + 1)).map fun k : Nat => s + (k : Int) := by
          rw [List.range_succ_eq_map, List.map_cons, List.map_map]
          have hfn : ((fun k : Nat => s + (k : Int)) ∘ (· + 1)) =
              fun k : Nat => (s + 1) + (k : Int) := by
            funext k
            simp only [Function.comp]
            push_cast
            ring
          rw [hfn]
          simp

/-- C10 counterexample to the claim as stated: at start = 2, end = 1 we have
start > end, yet the capacity end - start + 1 is 0, not negative, so the Go
function does not panic — it returns an empty slice (modelled: some []). -/
theorem c10_counterexample : (1 : Int) < 2 ∧ generatePartNumbers 2 1 = some [] :=
  ⟨by decide, by decide⟩

/-- C10 (amended): for start ≤ end the function returns exactly the
contiguous sequence start..end of length end - start + 1; it panics (none)
exactly when end - start + 1 is negative, i.e. when start > end + 1; for
start = end + 1 it returns the empty list without panicking; and every engine
call site satisfies start ≤ end, because it passes start = partNum and
end = min (partNum + partURLBatchSize - 1) totalParts with
partNum ≤ totalParts, so the panic branch is unreachable in the program. -/
theorem c10_generate_part_numbers :
    (∀ s e : Int, s ≤ e →
      generatePartNumbers s e =
        some ((List.range (e - s + 1).toNat).map fun k : Nat => s + (k : Int)) ∧
      ∀ l, generatePartNumbers s e = some l → (l.length : Int) = e - s + 1) ∧
    (∀ s e : Int, generatePartNumbers s e = none ↔ e + 1 < s) ∧
    (∀ s : Int, generatePartNumbers s (s - 1) = some []) ∧
    (∀ partNum totalParts : Int, partNum ≤ totalParts →
      partNum ≤ min (partNum + (partURLBatchSize : Int) - 1) totalParts) := by
  refine ⟨?_, ?_, ?_, ?_⟩
  · intro s e hse
    have hnn : ¬(e - s + 1 < 0) := by omega
    have hval : generatePartNumbers s e =
        some ((List.range (e - s + 1).toNat).map fun k : Nat => s + (k : Int)) := by
      simp [generatePartNumbers, hnn, genNums_eq]
    refine ⟨hval, ?_⟩
    intro l hl
    rw [hval] at hl
    have : l = (List.range (e - s + 1).toNat).map fun k : Nat => s + (k : Int) :=
      (Option.some.injEq _ _ ▸ hl).symm
    subst this
    simp
    omega
  · intro s e
    by_cases h : e - s + 1 < 0
    · simp [generatePartNumbers, h]
      omega
    · simp [generatePartNumbers, h]
      omega
  · intro s
    simp [generatePartNumbers, genNums]
  · intro partNum totalParts h
    have : ((partURLBatchSize : Nat) : Int) = 50 := by rfl
    rw [le_min_iff]
    omega

theorem c10_witness :
    generatePartNumbers 1 5 = some [1, 2, 3, 4, 5] ∧
    (2 : Int) ≤ min (2 + (partURLBatchSize : Int) - 1) 5 := by
  constructor
  · exact (c10_generate_part_numbers.1 1 5 (by decide)).1.trans (by decide)
  · exact c10_generate_part_numbers.2.2.2 2 5 (by decide)

/-! ## C9: humanSize -/

lemma hsLoopF_spec : ∀ (fuel n div : Nat), n ≤ fuel → 1 ≤ n →
    (hsLoopF fuel n div).1 = div * 1024 ^ (hsLoopF fuel n div).2 ∧
    1024 ^ (hsLoopF fuel n div).2 ≤ n ∧ n < 1024 ^ ((hsLoopF fuel n div).2 + 1) := by
  intro fuel
  induction fuel with
  | zero => intro n div h1 h2; omega
  | succ f ih =>
    intro n div hle hpos
    by_cases h : 1024 ≤ n
    · have hdivle : n / 1024 ≤ f := by
        have := Nat.div_lt_self (by omega : 0 < n) (by omega : 1 < 1024)
        omega
      have hdivpos : 1 ≤ n / 1024 := (Nat.one_le_div_iff (by omega)).mpr h
      have spec := ih (n / 1024) (div * 1024) hdivle hdivpos
      have hdm := Nat.div_add_mod n 1024
      have hmlt : n % 1024 < 1024 := Nat.mod_lt _ (by omega)
      simp only [hsLoopF, if_pos h]
      refine ⟨?_, ?_, ?_⟩
      · rw [spec.1]; ring
      · calc 1024 ^ ((hsLoopF f (n / 1024) (div * 1024)).2 + 1)
            = 1024 ^ (hsLoopF f (n / 1024) (div * 1024)).2 * 1024 := by ring
          _ ≤ (n / 1024) * 1024 := Nat.mul_le_mul_right _ spec.2.1
          _ ≤ n := by omega
      · have hup : n / 1024 + 1 ≤ 1024 ^ ((hsLoopF f (n / 1024) (div * 1024)).2 + 1) := spec.2.2
        calc n < (n / 1024 + 1) * 1024 := by omega
          _ ≤ 1024 ^ ((hsLoopF f (n / 1024) (div * 1024)).2 + 1) * 1024 :=
              Nat.mul_le_mul_right _ hup
          _ = 1024 ^ ((hsLoopF f (n / 1024) (div * 1024)).2 + 1 + 1) := by ring
    · simp only [hsLoopF, if_neg h]
      exact ⟨by ring, by simpa using hpos, by simpa using by omega⟩

lemma hs_band (b : Nat) (hb : 1024 ≤ b) :
    (hsLoopF (b / 1024) (b / 1024) 1024).1 =
      1024 ^ ((hsLoopF (b / 1024) (b / 1024) 1024).2 + 1) ∧
    1024 ^ ((hsLoopF (b / 1024) (b / 1024) 1024).2 + 1) ≤ b ∧
    b < 1024 ^ ((hsLoopF (b / 1024) (b / 1024) 1024).2 + 2) := by
  have hpos : 1 ≤ b / 1024 := (Nat.one_le_div_iff (by omega)).mpr hb
  have spec := hsLoopF_spec (b / 1024) (b / 1024) 1024 le_rfl hpos
  have hdm := Nat.div_add_mod b 1024
  have hmlt : b % 1024 < 1024 := Nat.mod_lt _ (by omega)
  refine ⟨by rw [spec.1]; ring, ?_, ?_⟩
  · calc 1024 ^ ((hsLoopF (b / 1024) (b / 1024) 1024).2 + 1)
        = 1024 ^ (hsLoopF (b / 1024) (b / 1024) 1024).2 * 1024 := by ring
      _ ≤ (b / 1024) * 1024 := Nat.mul_le_mul_right _ spec.2.1
      _ ≤ b := by omega
  · have hup : b / 1024 + 1 ≤ 1024 ^ ((hsLoopF (b / 1024) (b / 1024) 1024).2 + 1) := spec.2.2
    calc b < (b / 1024 + 1) * 1024 := by omega
      _ ≤ 1024 ^ ((hsLoopF (b / 1024) (b / 1024) 1024).2 + 1) * 1024 :=
          Nat.mul_le_mul_right _ hup
      _ = 1024 ^ ((hsLoopF (b / 1024) (b / 1024) 1024).2 + 2) := by ring

lemma rhe_div_le (num den : Nat) : num / den ≤ roundHalfEven num den := by
  unfold roundHalfEven; split_ifs <;> omega

lemma rhe_le_succ (num den : Nat) : roundHalfEven num den ≤ num / den + 1 := by
  unfold roundHalfEven; split_ifs <;> omega

lemma rhe_mono (den : Nat) {n1 n2 : Nat} (h : n1 ≤ n2) :
    roundHalfEven n1 den ≤ roundHalfEven n2 den := by
  have hq : n1 / den ≤ n2 / den := Nat.div_le_div_right h
  rcases Nat.lt_or_ge (n1 / den) (n2 / den) with hlt | hge
  · calc roundHalfEven n1 den ≤ n1 / den + 1 := rhe_le_succ _ _
      _ ≤ n2 / den := hlt
      _ ≤ roundHalfEven n2 den := rhe_div_le _ _
  · have heq : n1 / den = n2 / den := le_antisymm hq hge
    have e1 := Nat.div_add_mod n1 den
    have e2 := Nat.div_add_mod n2 den
    rw [heq] at e1
    have hr : n1 % den ≤ n2 % den := by
      generalize hK : den * (n2 / den) = K at e1 e2
      omega
    unfold roundHalfEven
    rw [heq]
    split_ifs <;> omega

lemma rhe_lower (num den : Nat) (hden : 0 < den) (h : 10 * den ≤ num) :
    10 ≤ roundHalfEven num den :=
  le_trans ((Nat.le_div_iff_mul_le hden).mpr h) (rhe_div_le _ _)

lemma rhe_upper (num den : Nat) (hden : 0 < den) (h : num < 10240 * den) :
    roundHalfEven num den ≤ 10240 := by
  have h1 : num / den < 10240 := Nat.div_lt_of_lt_mul (by omega)
  have h2 := rhe_le_succ num den
  omega

lemma hsVal10_small {b : Int} (hb : b < 1024) : hsVal10 b = 10 * b := by
  rw [hsVal10, if_pos hb]

lemma hsVal10_large {b : Int} (hb : ¬b < 1024) :
    hsVal10 b = ((roundHalfEven (10 * b.toNat)
      (hsLoopF (b.toNat / 1024) (b.toNat / 1024) 1024).1 *
      (hsLoopF (b.toNat / 1024) (b.toNat / 1024) 1024).1 : Nat) : Int) := by
  rw [hsVal10, if_neg hb]

lemma hsVal10_mono {b1 b2 : Int} (h : b1 ≤ b2) : hsVal10 b1 ≤ hsVal10 b2 := by
  by_cases h2 : b2 < 1024
  · have h1 : b1 < 1024 := lt_of_le_of_lt h h2
    rw [hsVal10_small h1, hsVal10_small h2]
    omega
  · by_cases h1 : b1 < 1024
    · rw [hsVal10_small h1, hsVal10_large h2]
      push_neg at h2
      have hn2 : 1024 ≤ b2.toNat := by omega
      have band := hs_band b2.toNat hn2
      have hdpos : 0 < (hsLoopF (b2.toNat / 1024) (b2.toNat / 1024) 1024).1 := by
        rw [band.1]; positivity
      have hdge : 1024 ≤ (hsLoopF (b2.toNat / 1024) (b2.toNat / 1024) 1024).1 := by
        rw [band.1]
        calc (1024 : Nat) = 1024 ^ 1 := by ring
          _ ≤ 1024 ^ ((hsLoopF (b2.toNat / 1024) (b2.toNat / 1024) 1024).2 + 1) :=
            Nat.pow_le_pow_right (by omega) (by omega)
      have hdle : (hsLoopF (b2.toNat / 1024) (b2.toNat / 1024) 1024).1 ≤ b2.toNat :=
        band.1 ▸ band.2.1
      have hm : 10 ≤ roundHalfEven (10 * b2.toNat)
          (hsLoopF (b2.toNat / 1024) (b2.toNat / 1024) 1024).1 :=
        rhe_lower _ _ hdpos (Nat.mul_le_mul_left 10 hdle)
      have hprod : 10240 ≤ roundHalfEven (10 * b2.toNat)
          (hsLoopF (b2.toNat / 1024) (b2.toNat / 1024) 1024).1 *
          (hsLoopF (b2.toNat / 1024) (b2.toNat / 1024) 1024).1 := by
        calc (10240 : Nat) = 10 * 1024 := by ring
          _ ≤ _ := Nat.mul_le_mul hm hdge
      omega
    · rw [hsVal10_large h1, hsVal10_large h2]
      push_neg at h1 h2
      have hn1 : 1024 ≤ b1.toNat := by omega
      have hn2 : 1024 ≤ b2.toNat := by omega
      have hn12 : b1.toNat ≤ b2.toNat := by omega
      have band1 := hs_band b1.toNat hn1
      have band2 := hs_band b2.toNat hn2
      have hd1pos : 0 < (hsLoopF (b1.toNat / 1024) (b1.toNat / 1024) 1024).1 := by
        rw [band1.1]; positivity
      have hd2pos : 0 < (hsLoopF (b2.toNat / 1024) (b2.toNat / 1024) 1024).1 := by
        rw [band2.1]; positivity
      have he : (hsLoopF (b1.toNat / 1024) (b1.toNat / 1024) 1024).2 ≤
          (hsLoopF (b2.toNat / 1024) (b2.toNat / 1024) 1024).2 := by
        by_contra hc
        push_neg at hc
        have hchain : 1024 ^ ((hsLoopF (b2.toNat / 1024) (b2.toNat / 1024) 1024).2 + 2) ≤
            1024 ^ ((hsLoopF (b1.toNat / 1024) (b1.toNat / 1024) 1024).2 + 1) :=
          Nat.pow_le_pow_right (by omega) (by omega)
        have hb1 := band1.2.1
        have hb2 := band2.2.2
        omega
      rcases eq_or_lt_of_le he with heq | hlt
      · have hd : (hsLoopF (b1.toNat / 1024) (b1.toNat / 1024) 1024).1 =
            (hsLoopF (b2.toNat / 1024) (b2.toNat / 1024) 1024).1 := by
          rw [band1.1, band2.1, heq]
        rw [hd]
        have := Nat.mul_le_mul_right (hsLoopF (b2.toNat / 1024) (b2.toNat / 1024) 1024).1
          (rhe_mono (hsLoopF (b2.toNat / 1024) (b2.toNat / 1024) 1024).1
            (by omega : 10 * b1.toNat ≤ 10 * b2.toNat))
        omega
      · have h1up : roundHalfEven (10 * b1.toNat)
            (hsLoopF (b1.toNat / 1024) (b1.toNat / 1024) 1024).1 ≤ 10240 := by
          refine rhe_upper _ _ hd1pos ?_
          have hlt1 : b1.toNat <
              1024 * (hsLoopF (b1.toNat / 1024) (b1.toNat / 1024) 1024).1 := by
            rw [band1.1]
            calc b1.toNat < 1024 ^ ((hsLoopF (b1.toNat / 1024) (b1.toNat / 1024) 1024).2 + 2) :=
                band1.2.2
              _ = 1024 * 1024 ^ ((hsLoopF (b1.toNat / 1024) (b1.toNat / 1024) 1024).2 + 1) := by
                ring
          omega
        have hstep : 1024 * (hsLoopF (b1.toNat / 1024) (b1.toNat / 1024) 1024).1 ≤
            (hsLoopF (b2.toNat / 1024) (b2.toNat / 1024) 1024).1 := by
          rw [band1.1, band2.1]
          calc 1024 * 1024 ^ ((hsLoopF (b1.toNat / 1024) (b1.toNat / 1024) 1024).2 + 1)
              = 1024 ^ ((hsLoopF (b1.toNat / 1024) (b1.toNat / 1024) 1024).2 + 2) := by ring
            _ ≤ 1024 ^ ((hsLoopF (b2.toNat / 1024) (b2.toNat / 1024) 1024).2 + 1) :=
              Nat.pow_le_pow_right (by omega) (by omega)
        have hd2le : (hsLoopF (b2.toNat / 1024) (b2.toNat / 1024) 1024).1 ≤ b2.toNat :=
          band2.1 ▸ band2.2.1
        have hm2 : 10 ≤ roundHalfEven (10 * b2.toNat)
            (hsLoopF (b2.toNat / 1024) (b2.toNat / 1024) 1024).1 :=
          rhe_lower _ _ hd2pos (Nat.mul_le_mul_left 10 hd2le)
        have c1 : roundHalfEven (10 * b1.toNat)
              (hsLoopF (b1.toNat / 1024) (b1.toNat / 1024) 1024).1 *
              (hsLoopF (b1.toNat / 1024) (b1.toNat / 1024) 1024).1 ≤
            10240 * (hsLoopF (b1.toNat / 1024) (b1.toNat / 1024) 1024).1 :=
          Nat.mul_le_mul_right _ h1up
        have c2 : 10240 * (hsLoopF (b1.toNat / 1024) (b1.toNat / 1024) 1024).1 ≤
            10 * (hsLoopF (b2.toNat / 1024) (b2.toNat / 1024) 1024).1 := by
          calc 10240 * (hsLoopF (b1.toNat / 1024) (b1.toNat / 1024) 1024).1
              = 10 * (1024 * (hsLoopF (b1.toNat / 1024) (b1.toNat / 1024) 1024).1) := by ring
            _ ≤ 10 * (hsLoopF (b2.toNat / 1024) (b2.toNat / 1024) 1024).1 :=
              Nat.mul_le_mul_left 10 hstep
        have c3 : 10 * (hsLoopF (b2.toNat / 1024) (b2.toNat / 1024) 1024).1 ≤
            roundHalfEven (10 * b2.toNat)
              (hsLoopF (b2.toNat / 1024) (b2.toNat / 1024) 1024).1 *
              (hsLoopF (b2.toNat / 1024) (b2.toNat / 1024) 1024).1 :=
          Nat.mul_le_mul_right _ hm2
        omega

/-- C9: humanSize renders the six test values with binary (1024) prefixes,
and is monotonic: the displayed value — hsVal10, the rounded mantissa in
tenths times the binary divisor, the exact quantity the rendered string
shows — never decreases as the byte count grows.  The float64 rounding of
the source is modelled as exact round-half-even to one decimal digit, which
coincides with it below 2^53. -/
theorem c9_human_size :
    (humanSize 0 = "0 B" ∧ humanSize 1023 = "1023 B" ∧ humanSize 1024 = "1.0 KB" ∧
     humanSize 1536 = "1.5 KB" ∧ humanSize 1048576 = "1.0 MB" ∧
     humanSize 1073741824 = "1.0 GB") ∧
    ∀ b1 b2 : Int, b1 ≤ b2 → hsVal10 b1 ≤ hsVal10 b2 :=
  ⟨⟨by decide, by decide, by decide, by decide, by decide, by decide⟩,
   fun _ _ h => hsVal10_mono h⟩

theorem c9_witness : humanSize 1024 = "1.0 KB" ∧ hsVal10 1024 ≤ hsVal10 1536 :=
  ⟨c9_human_size.1.2.2.1, c9_human_size.2 1024 1536 (by decide)⟩

/-! ## C8: progress/checksum stream -/

lemma xor_mask_cancel (X : Nat) : (0xFFFFFFFF ^^^ X) ^^^ 0xFFFFFFFF = X := by
  rw [Nat.xor_comm 0xFFFFFFFF X, Nat.xor_assoc, Nat.xor_self, Nat.xor_zero]

lemma crc32Update_nil (c : Nat) : crc32Update c [] = c := by
  unfold crc32Update
  rw [List.foldl_nil, Nat.xor_comm c 0xFFFFFFFF, ← Nat.xor_assoc, Nat.xor_self, Nat.zero_xor]

lemma crc32Update_append (c : Nat) (a b : List Nat) :
    crc32Update (crc32Update c a) b = crc32Update c (a ++ b) := by
  unfold crc32Update
  rw [xor_mask_cancel, List.foldl_append]

lemma runReads_crc : ∀ (chunks : List (List Nat)) (pr : ProgressReader),
    pr.hasherEnabled = true →
    (runReads pr chunks).crc = crc32Update pr.crc chunks.flatten ∧
    (runReads pr chunks).hasherEnabled = true := by
  intro chunks
  induction chunks with
  | nil => intro pr h; exact ⟨(crc32Update_nil pr.crc).symm, h⟩
  | cons c cs ih =>
    intro pr h
    have hrun : runReads pr (c :: cs) = runReads (progressRead pr c none).1 cs := rfl
    by_cases hc : 0 < c.length
    · have hstep : (progressRead pr c none).1 =
          { pr with uploaded := pr.uploaded + c.length, crc := crc32Update pr.crc c } := by
        simp [progressRead, hc, h]
      have hen : (progressRead pr c none).1.hasherEnabled = true := by
        rw [hstep]
        exact h
      have hrec := ih (progressRead pr c none).1 hen
      rw [hrun]
      refine ⟨?_, hrec.2⟩
      rw [hrec.1]
      simp only [hstep, List.flatten_cons]
      exact crc32Update_append pr.crc c cs.flatten
    · have hnil : c = [] := by
        cases c with
        | nil => rfl
        | cons x xs => simp at hc
      subst hnil
      have hstep : (progressRead pr [] none).1 = pr := rfl
      rw [hrun, hstep]
      have hrec := ih pr h
      refine ⟨?_, hrec.2⟩
      rw [hrec.1]
      simp [List.flatten_cons]

/-- C8: for one Read through the progress/checksum wrapper delivering n > 0
bytes, the uploaded counter grows by exactly n, the bytes are folded into the
running CRC-32 when accumulation is enabled, and the observer fires with
(uploaded, total); a read delivering 0 bytes (end-of-stream or error) fires
no callback and leaves the state unchanged.  Consequently, starting from the
engine's initial reader, after any sequence of reads the accumulated value is
the CRC-32 (IEEE) of all bytes delivered so far. -/
theorem c8_progress_reader :
    (∀ (pr : ProgressReader) (chunk : List Nat) (err : Option String),
      (0 < chunk.length →
        (progressRead pr chunk err).1.uploaded = pr.uploaded + chunk.length ∧
        (pr.hasherEnabled = true →
          (progressRead pr chunk err).1.crc = crc32Update pr.crc chunk) ∧
        (pr.hasObserver = true →
          (progressRead pr chunk err).2.1 = some (pr.uploaded + chunk.length, pr.total))) ∧
      (chunk.length = 0 →
        (progressRead pr chunk err).2.1 = none ∧ (progressRead pr chunk err).1 = pr)) ∧
    (∀ (total : Int) (chunks : List (List Nat)),
      (runReads (initProgressReader total) chunks).crc = crc32IEEE chunks.flatten) := by
  constructor
  · intro pr chunk err
    constructor
    · intro hc
      refine ⟨?_, ?_, ?_⟩
      · simp [progressRead, hc]
      · intro hh; simp [progressRead, hc, hh]
      · intro ho; simp [progressRead, hc, ho]
    · intro hc
      have : ¬0 < chunk.length := by omega
      simp [progressRead, this]
  · intro total chunks
    exact (runReads_crc chunks (initProgressReader total) rfl).1

theorem c8_witness :
    (progressRead (initProgressReader 9) [1, 2, 3] none).1.uploaded = 0 + 3 ∧
    (progressRead (initProgressReader 9) [1, 2, 3] none).1.crc =
      crc32Update 0 [1, 2, 3] ∧
    (progressRead (initProgressReader 9) [1, 2, 3] none).2.1 = some (0 + 3, 9) ∧
    (progressRead (initProgressReader 9) [] (some "eof")).2.1 = none := by
  have h := (c8_progress_reader.1 (initProgressReader 9) [1, 2, 3] none).1 (by decide)
  have h0 := (c8_progress_reader.1 (initProgressReader 9) [] (some "eof")).2 rfl
  exact ⟨h.1, h.2.1 rfl, h.2.2 rfl, h0.1⟩

/-! ## C1, C2, C7: multipart orchestration -/

instance {e a : Type} [DecidableEq e] [DecidableEq a] : DecidableEq (Except e a)
  | .error x, .error y => if h : x = y then .isTrue (by rw [h]) else .isFalse (by simp [h])
  | .error _, .ok _ => .isFalse (by simp)
  | .ok _, .error _ => .isFalse (by simp)
  | .ok x, .ok y => if h : x = y then .isTrue (by rw [h]) else .isFalse (by simp [h])

lemma firstFailure_none_iff (env : MpEnv) :
    firstFailure env = none ↔ ∀ p ∈ List.range' 1 env.launched, env.failed p = false := by
  unfold firstFailure
  rw [List.find?_eq_none]
  constructor
  · intro h p hp
    have := h p hp
    simpa using this
  · intro h p hp
    simp [h p hp]

lemma finalize_inv (env : MpEnv) (hv : ValidRun env) (ps : List Part)
    (hf : (uploadMultipart env).finalizeCalled = some ps) :
    env.order.Perm (List.range' 1 env.totalParts) ∧ ps = collectedParts env := by
  unfold uploadMultipart at hf
  cases hu : env.urlFail with
  | true => rw [hu] at hf; simp at hf
  | false =>
  rw [hu] at hf
  cases hcl : env.cancelled with
  | true => rw [hcl] at hf; simp at hf
  | false =>
  rw [hcl] at hf
  rcases hff : firstFailure env with _ | p
  · rw [hff] at hf
    have hnofail := (firstFailure_none_iff env).mp hff
    have hlT : env.launched = env.totalParts :=
      hv.2.2 (by simp [hcl]) (by simp [hu]) hnofail
    have hfilter : (List.range' 1 env.launched).filter (fun p => !env.failed p) =
        List.range' 1 env.launched :=
      List.filter_eq_self.mpr (by intro a ha; simp [hnofail a ha])
    have hperm : env.order.Perm (List.range' 1 env.totalParts) := by
      have hp2 := hv.2.1
      rw [hfilter, hlT] at hp2
      exact hp2
    refine ⟨hperm, ?_⟩
    rcases hcr : env.completeResult with msg | u
    · rw [hcr] at hf
      simp at hf
      exact hf.symm
    · rw [hcr] at hf
      cases hcro : env.crcReadOk with
      | true => rw [hcro] at hf; simp at hf; exact hf.symm
      | false => rw [hcro] at hf; simp at hf; exact hf.symm
  · rw [hff] at hf
    simp at hf

/-- C1 (amended): whenever a valid multipart run reaches the remote finalize
call, the completion token list handed to CompleteMultipart contains exactly
one token per part number 1..totalParts — it is a permutation of the
ascending list — but the tokens appear in part-completion order, as appended
by the racing goroutines; the engine performs no sort before finalize. -/
theorem c1_finalize_tokens_complete (env : MpEnv) (hv : ValidRun env) (ps : List Part)
    (hf : (uploadMultipart env).finalizeCalled = some ps) :
    ps.Perm ((List.range' 1 env.totalParts).map fun p => (⟨p, env.etag p⟩ : Part)) := by
  obtain ⟨hperm, hps⟩ := finalize_inv env hv ps hf
  rw [hps]
  exact hperm.map _

/-- Successful two-part run whose parts completed in the order 2, 1. -/
def envRun : MpEnv :=
  { totalParts := 2, uploadID := "sess-1",
    etag := fun p => "etag" ++ toString p,
    failed := fun _ => false, launched := 2, order := [2, 1],
    urlFail := false, cancelled := false,
    completeResult := .ok (), abortResult := .ok (),
    fileBytes := [], crcReadOk := true }

/-- C1 counterexample to the claim as stated: a valid run in which part 2
completes before part 1 reaches finalize with the token list in completion
order [2, 1] — not sorted ascending by part number. -/
theorem c1_counterexample :
    ValidRun envRun ∧
    (uploadMultipart envRun).finalizeCalled =
      some [⟨2, "etag2"⟩, ⟨1, "etag1"⟩] ∧
    ¬partsSorted [⟨2, "etag2"⟩, ⟨1, "etag1"⟩] := by
  refine ⟨?_, by decide, ?_⟩
  · unfold ValidRun
    decide
  · unfold partsSorted
    decide

theorem c1_witness :
    ([⟨2, "etag2"⟩, ⟨1, "etag1"⟩] : List Part).Perm
      ((List.range' 1 envRun.totalParts).map fun p => (⟨p, envRun.etag p⟩ : Part)) :=
  c1_finalize_tokens_complete envRun (by unfold ValidRun; decide) _ (by decide)

/-- C2: a valid multipart run invokes the remote finalize only with a token
set whose part numbers are exactly 1..totalParts; if any part number is
missing from the collected set, the run returns an error and finalize is
never invoked. -/
theorem c2_finalize_exact_parts (env : MpEnv) (hv : ValidRun env) :
    (∀ ps, (uploadMultipart env).finalizeCalled = some ps →
      (ps.map Part.partNumber).Perm (List.range' 1 env.totalParts)) ∧
    ((∃ p ∈ List.range' 1 env.totalParts, p ∉ env.order) →
      (uploadMultipart env).finalizeCalled = none ∧
      ∃ e, (uploadMultipart env).outcome = .error e) := by
  constructor
  · intro ps hf
    obtain ⟨hperm, hps⟩ := finalize_inv env hv ps hf
    rw [hps]
    unfold collectedParts
    rw [List.map_map]
    have hid : (Part.partNumber ∘ fun p => (⟨p, env.etag p⟩ : Part)) = id := by
      funext p
      rfl
    rw [hid, List.map_id]
    exact hperm
  · rintro ⟨p, hp, hnp⟩
    cases hu : env.urlFail with
    | true => exact ⟨by simp [uploadMultipart, hu], ⟨.urlFetchFailed, by simp [uploadMultipart, hu]⟩⟩
    | false =>
    cases hcl : env.cancelled with
    | true =>
      exact ⟨by simp [uploadMultipart, hu, hcl], ⟨.cancelled, by simp [uploadMultipart, hu, hcl]⟩⟩
    | false =>
    rcases hff : firstFailure env with _ | q
    · exfalso
      have hnofail := (firstFailure_none_iff env).mp hff
      have hlT : env.launched = env.totalParts :=
        hv.2.2 (by simp [hcl]) (by simp [hu]) hnofail
      have hfilter : (List.range' 1 env.launched).filter (fun r => !env.failed r) =
          List.range' 1 env.launched :=
        List.filter_eq_self.mpr (by intro a ha; simp [hnofail a ha])
      have hperm : env.order.Perm (List.range' 1 env.totalParts) := by
        have hp2 := hv.2.1
        rw [hfilter, hlT] at hp2
        exact hp2
      exact hnp (hperm.mem_iff.mpr hp)
    · exact ⟨by simp [uploadMultipart, hu, hcl, hff],
        ⟨.partFailed q, by simp [uploadMultipart, hu, hcl, hff]⟩⟩

theorem c2_witness :
    (([⟨2, "etag2"⟩, ⟨1, "etag1"⟩] : List Part).map Part.partNumber).Perm
      (List.range' 1 envRun.totalParts) :=
  (c2_finalize_exact_parts envRun (by unfold ValidRun; decide)).1 _ (by decide)

lemma abortCalled_eq (env : MpEnv) :
    (uploadMultipart env).abortCalled = (env.cancelled && !(env.uploadID == "")) := by
  unfold uploadMultipart
  cases hu : env.urlFail <;> cases hc : env.cancelled <;>
    rcases hff : firstFailure env with _ | p <;>
    rcases hcr : env.completeResult with msg | u <;>
    cases hcro : env.crcReadOk <;>
    simp [hu, hc, hff, hcr, hcro]

/-- Run with one launched part whose transfer failed, no cancellation, with
an open session: the engine returns the part error and issues no abort. -/
def envFail : MpEnv :=
  { totalParts := 1, uploadID := "sess-2", etag := fun _ => "",
    failed := fun _ => true, launched := 1, order := [],
    urlFail := false, cancelled := false, completeResult := .ok (),
    abortResult := .ok (), fileBytes := [], crcReadOk := true }

/-- C7 counterexample to the claim as stated: a session was opened (non-empty
session ID) and the operation failed terminally through part-retry
exhaustion without cancellation, yet no abort call is issued — the deferred
cleanup fires only when ctx.Err() is non-nil. -/
theorem c7_counterexample :
    ValidRun envFail ∧ envFail.uploadID ≠ "" ∧
    (uploadMultipart envFail).outcome = .error (.partFailed 1) ∧
    (uploadMultipart envFail).abortCalled = false := by
  refine ⟨by unfold ValidRun; decide, by decide, by decide, by decide⟩

/-- C7 (amended): the best-effort abort call is issued exactly when the
caller's context is cancelled at exit and a session ID exists — a terminal
failure without cancellation does not trigger it — and the abort call's own
result is never read, so its failure cannot escalate to the caller (in the
source it runs on a fresh 10-second background context). -/
theorem c7_abort_only_on_cancel (env : MpEnv) :
    ((uploadMultipart env).abortCalled = true ↔
      env.cancelled = true ∧ env.uploadID ≠ "") ∧
    (∀ r, uploadMultipart { env with abortResult := r } = uploadMultipart env) := by
  constructor
  · rw [abortCalled_eq]
    simp
  · intro r
    rfl

/-! ## C3: batch orchestration -/

lemma singleton_of_nodup_mem_iff {j : Nat} :
    ∀ (l : List Nat), l.Nodup → (∀ x, x ∈ l ↔ x = j) → l = [j] := by
  intro l hnd hmem
  cases l with
  | nil => exact absurd ((hmem j).mpr rfl) (List.not_mem_nil j)
  | cons a t =>
    have ha : a = j := (hmem a).mp (List.mem_cons_self a t)
    subst ha
    have ht : t = [] := by
      cases t with
      | nil => rfl
      | cons b u =>
        have hb : b = a := (hmem b).mp (List.mem_cons_of_mem a (List.mem_cons_self b u))
        subst hb
        exact absurd (List.mem_cons_self b u) (List.nodup_cons.mp hnd).1
    rw [ht]

lemma countP_range_point {n j : Nat} (p : Nat → Bool) (hj : j < n)
    (hp : ∀ i, i < n → (p i = true ↔ i = j)) :
    (List.range n).countP p = 1 := by
  have hmem : ∀ x, x ∈ (List.range n).filter p ↔ x = j := by
    intro x
    rw [List.mem_filter, List.mem_range]
    constructor
    · rintro ⟨hx, hpx⟩
      exact (hp x hx).mp hpx
    · intro hxj
      subst hxj
      exact ⟨hj, (hp x hj).mpr rfl⟩
  have hnd : ((List.range n).filter p).Nodup := (List.nodup_range n).filter p
  rw [List.countP_eq_length_filter, singleton_of_nodup_mem_iff _ hnd hmem]
  rfl

lemma countP_ne_range (n j : Nat) (hj : j < n) :
    (List.range n).countP (fun i => i != j) = n - 1 := by
  induction n with
  | zero => omega
  | succ m ih =>
    rw [List.range_succ, List.countP_append]
    by_cases hmj : m = j
    · subst hmj
      have hall : (List.range m).countP (fun i => i != m) = m := by
        rw [List.countP_eq_length.mpr]
        · exact List.length_range m
        · intro a ha
          have := List.mem_range.mp ha
          simp
          omega
      simp [hall]
    · have hjm : j < m := by omega
      rw [ih hjm]
      have hone : List.countP (fun i => i != j) [m] = 1 := by
        simp [hmj]
      rw [hone]
      omega

lemma countP_range_off_point {n j : Nat} (p : Nat → Bool) (hj : j < n)
    (hp : ∀ i, i < n → (p i = true ↔ i ≠ j)) :
    (List.range n).countP p = n - 1 := by
  have hc : (List.range n).countP p = (List.range n).countP (fun i => i != j) := by
    apply List.countP_congr
    intro a ha
    have hah := List.mem_range.mp ha
    rcases hb : p a with _ | _
    · have : ¬(a ≠ j) := fun hne => by
        have := (hp a hah).mpr hne
        rw [hb] at this
        exact Bool.false_ne_true this
      simp at this
      simp [this]
    · have := (hp a hah).mp hb
      simp [this]
  rw [hc]
  exact countP_ne_range n j hj

/-- C3: in a batch run where exactly one file's per-file negotiation result
carries an error and everything else succeeds, only that file is marked
failed: every other file is transferred and confirmed, the collection is
still marked ready, the reported failure count is 1, and the batch-level
operation returns no error. -/
theorem c3_batch_isolated_failure (env : BatchEnv) (j : Nat) (msg : String)
    (hc : env.createOk = true) (hic : ∀ p, env.initCallOk p = true)
    (hcc : ∀ p, env.confirmCallOk p = true) (hr : env.readyOk = true)
    (hnc : env.cancelledAt = none) (hj : j < env.numFiles)
    (hjf : env.initRes j = .error msg)
    (hok : ∀ i, i < env.numFiles → i ≠ j →
      ∃ u k c, env.initRes i = .ok (u, k) ∧ u ≠ "" ∧ k ≠ "" ∧ env.transferRes i = .ok c) :
    (uploadFilesBatch env).outcome = .ok () ∧
    (uploadFilesBatch env).markedReady = true ∧
    (uploadFilesBatch env).errorCount = 1 ∧
    (uploadFilesBatch env).confirmed = (List.range env.numFiles).filter (fun i => i != j) ∧
    (uploadFilesBatch env).uploadedCount = env.numFiles - 1 := by
  have hip : firstFailingPage env.initCallOk (numPages env.numFiles) = none := by
    unfold firstFailingPage
    apply List.find?_eq_none.mpr
    intro p _
    simp [hic p]
  have hproc : processedCount env = env.numFiles := by
    simp [processedCount, hnc]
  have hfail : ∀ i, i < env.numFiles → ((negFail env i || transFail env i) = true ↔ i = j) := by
    intro i hi
    by_cases hij : i = j
    · subst hij
      simp [negFail, transFail, hjf]
    · obtain ⟨u, k, c, hi1, hu, _, ht⟩ := hok i hi hij
      simp [negFail, transFail, hi1, hu, ht, hij, Except.isOk, Except.toBool]
  have hupl : ∀ i, i < env.numFiles →
      ((!negFail env i && (env.transferRes i).isOk) = true ↔ i ≠ j) := by
    intro i hi
    by_cases hij : i = j
    · subst hij
      simp [negFail, hjf]
    · obtain ⟨u, k, c, hi1, hu, _, ht⟩ := hok i hi hij
      simp [negFail, hi1, hu, ht, hij, Except.isOk, Except.toBool]
  have hconf : ∀ i ∈ List.range env.numFiles,
      (uploadErrNil env i && !(r2Key env i == "")) = (i != j) := by
    intro i hi
    have hin : i < env.numFiles := List.mem_range.mp hi
    by_cases hij : i = j
    · subst hij
      simp [uploadErrNil, r2Key, hjf]
    · obtain ⟨u, k, c, hi1, hu, hk, ht⟩ := hok i hin hij
      have hkb : (k == "") = false := by simpa using hk
      have hib : (i == j) = false := by simpa using hij
      simp [uploadErrNil, r2Key, hi1, hu, ht, hproc, hin,
        Except.isOk, Except.toBool, bne, hkb, hib]
  have hec : batchErrorCount env = 1 := by
    rw [batchErrorCount, hproc]
    exact countP_range_point _ hj hfail
  have huc : batchUploadedCount env = env.numFiles - 1 := by
    rw [batchUploadedCount, hproc]
    exact countP_range_off_point _ hj hupl
  have htc : toConfirm env = (List.range env.numFiles).filter (fun i => i != j) := by
    rw [toConfirm]
    exact List.filter_congr hconf
  have hcp : firstFailingPage env.confirmCallOk (numPages (toConfirm env).length) = none := by
    unfold firstFailingPage
    apply List.find?_eq_none.mpr
    intro p _
    simp [hcc p]
  rw [htc] at hcp
  refine ⟨?_, ?_, ?_, ?_, ?_⟩ <;>
    simp [uploadFilesBatch, hc, hip, hcp, hr, hec, htc, huc]

/-- Ten-file batch in which only file index 2 (file #3) fails negotiation. -/
def envBatch : BatchEnv :=
  { numFiles := 10, createOk := true, initCallOk := fun _ => true,
    initRes := fun i => if i = 2 then .error "bad" else .ok ("u", "k"),
    cancelledAt := none,
    transferRes := fun _ => .ok 7,
    confirmCallOk := fun _ => true, readyOk := true }

theorem c3_witness :
    (uploadFilesBatch envBatch).outcome = .ok () ∧
    (uploadFilesBatch envBatch).markedReady = true ∧
    (uploadFilesBatch envBatch).errorCount = 1 ∧
    (uploadFilesBatch envBatch).confirmed = (List.range 10).filter (fun i => i != 2) ∧
    (uploadFilesBatch envBatch).uploadedCount = 10 - 1 :=
  c3_batch_isolated_failure envBatch 2 "bad" rfl (fun _ => rfl) (fun _ => rfl) rfl rfl
    (by decide) rfl
    (fun i _ hij => ⟨"u", "k", 7, by
        show (if i = 2 then Except.error "bad" else Except.ok ("u", "k")) = Except.ok ("u", "k")
        rw [if_neg hij], by decide, by decide, rfl⟩)

end Storageto
